import Mathlib

/-!
Verification of the specifier-rewrite engine of rollup-plugin-rename-extensions
(src/index.ts). The file embeds the two realizations of the design (the
Babel-parser-backed one and the acorn-backed one) as executable Lean
definitions over JavaScript strings modelled as lists of characters, and
proves or refutes the frozen claims about them.
-/

/-- JavaScript strings are modelled as lists of characters. -/

abbrev Str := List Char

/-- Models the JavaScript expression `input.slice(0, -len)`. In JavaScript,
when `len` is `0` the second argument is `-0`, which equals `0`, so the slice
is empty rather than the whole string. Otherwise the last `len` characters are
dropped (clamping at the start of the string). -/
def jsSliceNeg (s : Str) (len : Nat) : Str :=
  if len = 0 then [] else s.take (s.length - len)

/-- Models the JavaScript idiom `result || fallback` applied to a value of
type `string | false`: `false` and the empty string are falsy, any other
string is returned as is. -/
def jsOr (result : Option Str) (fallback : Str) : Str :=
  match result with
  | some s => if s.isEmpty then fallback else s
  | none => fallback

/-- The `mappings` option: a JavaScript object from input extension to output
extension, modelled as an association list (keys unique by construction of a
JavaScript object literal; lookup returns the first match). -/
abbrev Mappings := List (Str × Str)

/-- Models `extensions.hasOwnProperty(extension)` followed by
`extensions[extension]`: association-list lookup. -/
def lookupMapping : Mappings → Str → Option Str
  | [], _ => none
  | (key, val) :: rest, ext => if key = ext then some val else lookupMapping rest ext

/-- The final path segment of a path string: the characters after the last
forward slash (the whole string when there is no slash). -/
def lastSegment (p : Str) : Str :=
  (p.reverse.takeWhile (fun c => c != '/')).reverse

/-- Modelled from the spec: the external path-utilities collaborator
(`extname` from the node `path` module), which the spec describes as "text
following the last `.` in the final path segment, including the dot; empty if
none". -/
def extname (p : Str) : Str :=
  if '.' ∈ lastSegment p then
    '.' :: ((lastSegment p).reverse.takeWhile (fun c => c != '.')).reverse
  else []

/-- The Extension Rewrite Rule `rewrite(input, extensions)` from
src/index.ts: compute the extension of `input`; when it is a key of the
mapping, return `input.slice(0, -extension.length)` with the mapped value
appended, otherwise return `false` (modelled as `none`). Both realizations
contain this function verbatim. -/
def rewrite (input : Str) (extensions : Mappings) : Option Str :=
  let extension := extname input
  match lookupMapping extensions extension with
  | some mapped => some (jsSliceNeg input extension.length ++ mapped)
  | none => none

/-! ### The Babel-parser-backed realization -/

/-- A single-quote character, written via its code point. -/

def singleQuote : Char := Char.ofNat 39

/-- A Babel `StringLiteral` node: unquoted string content plus the start and
end offsets of the literal in the source text (offsets span the literal
including its quote characters; they are optional on the Babel node type). -/
structure SLit where
  value : Str
  startPos : Option Nat
  endPos : Option Nat
deriving DecidableEq

/-- An argument of a call expression: either a string literal or any other
expression node. -/
inductive Arg where
  | strLit (lit : SLit)
  | otherArg
deriving DecidableEq

/-- The callee of a call expression, as far as `getRequireSource` inspects
it: the `Import` keyword form, an identifier carrying a name, or anything
else. -/
inductive CalleeKind where
  | importKw
  | ident (name : Str)
  | otherCallee
deriving DecidableEq

/-- A Babel `CallExpression` node restricted to the fields the source reads:
its callee and its argument list. -/
structure CallExpression where
  callee : CalleeKind
  arguments : List Arg
deriving DecidableEq

/-- The helper `isEmpty(array)` from src/index.ts (the undefined-array case
of the JavaScript original cannot arise for a total list). -/
def isEmpty (array : List α) : Bool := array.isEmpty

namespace Babel

/-- `getRequireSource` of the Babel-backed realization: reject a call with no
arguments or whose first argument is not a string literal; otherwise return
the first argument. The source computes whether the callee is the `Import`
keyword or an identifier named `require`, but returns the first argument on
both branches of that test, so the callee never affects the result. -/
def getRequireSource (node : CallExpression) : Option SLit :=
  if isEmpty node.arguments then none
  else
    match node.arguments.head? with
    | some (Arg.strLit firstArg) =>
        let isRequire : Bool :=
          match node.callee with
          | .ident name => name == "require".toList
          | _ => false
        let isImportCallee : Bool :=
          match node.callee with
          | .importKw => true
          | _ => false
        if isImportCallee || isRequire then some firstArg else some firstArg
    | _ => none

/-- A node of one of the four kinds the traversal visits, or any other node.
Import declarations always carry a source literal; export declarations carry
an optional source that may or may not be a string literal. -/
inductive BNode where
  | importDecl (source : SLit)
  | callExpr (node : CallExpression)
  | exportNamedDecl (source : Option Arg)
  | exportAllDecl (source : Option Arg)
  | otherNode
deriving DecidableEq

/-- `getImportSource`: the source literal of an import declaration, `false`
for any other node. -/
def getImportSource : BNode → Option SLit
  | .importDecl source => some source
  | _ => none

/-- `getExportSource`: the source of an export declaration when present and
a string literal, `false` otherwise. -/
def getExportSource (source : Option Arg) : Option SLit :=
  match source with
  | some (Arg.strLit lit) => some lit
  | _ => none

/-- The specifier-selection part of the Babel `extract` closure: dispatch on
the node kind to the matching getter (the kinds are mutually exclusive, so
the three sequential `if` statements of the source amount to one dispatch). -/
def extractReq : BNode → Option SLit
  | .importDecl source => getImportSource (.importDecl source)
  | .callExpr node => getRequireSource node
  | .exportNamedDecl source => getExportSource source
  | .exportAllDecl source => getExportSource source
  | .otherNode => none

/-- The error thrown by the Babel `extract` closure when the destructured
`start`/`end` of the extracted literal fail the truthiness test. -/
inductive ExtractError where
  | positionError
deriving DecidableEq

/-- A recorded `magicString.overwrite(start, end, replacementText)` call. -/
structure RewriteEdit where
  start : Nat
  stop : Nat
  replacementText : Str
deriving DecidableEq

/-- JavaScript truthiness of a possibly-undefined number: `undefined` and `0`
are falsy. Models the `!start || !end` test of the source. -/
def jsFalsyPos : Option Nat → Bool
  | none => true
  | some n => n == 0

/-- The Babel `extract` closure for a single visited node: select the
specifier literal; if one is found, throw when `start` or `end` is falsy,
otherwise run the Extension Rewrite Rule on its value and, when the result
passes the `if (newPath)` truthiness guard (both `false` and the empty
string are falsy in JavaScript, so an empty rewrite result records
nothing), record an overwrite of the span with the new path wrapped in
single quotes. -/
def extract (mappings : Mappings) (path : BNode) : Except ExtractError (Option RewriteEdit) :=
  match extractReq path with
  | none => .ok none
  | some req =>
      if jsFalsyPos req.startPos || jsFalsyPos req.endPos then
        .error .positionError
      else
        match rewrite req.value mappings with
        | some newPath =>
            if newPath.isEmpty then .ok none
            else
              .ok (some ⟨req.startPos.getD 0, req.endPos.getD 0,
                singleQuote :: (newPath ++ [singleQuote])⟩)
        | none => .ok none

end Babel


/-- The source text of the C3 counterexample: an import whose specifier is
written with double quotes, spanning offsets 14..22. -/
def c3Code : Str := "import x from ".toList ++ '"' :: ("./a.js".toList ++ ['"', ';'])

/-! ### The acorn-backed realization -/

namespace Acorn

/-- An acorn syntax node, restricted to the shapes the second realization
reads: literals carry a value and start and end offsets (modelled as optional
to express the malformed position scenario of the spec), identifiers carry a
name, call expressions a callee and arguments, import and export declarations
a source node. -/
inductive ANode where
  | literal (value : Str) (startPos endPos : Option Nat)
  | identifier (name : Str)
  | callExpr (callee : ANode) (arguments : List ANode)
  | importDecl (source : ANode)
  | exportNamedDecl (source : Option ANode)
  | exportAllDecl (source : Option ANode)
  | otherNode

/-- `getRequireSource` of the acorn-backed realization: requires the node to
be a call expression whose callee is an identifier named `require` and whose
first argument is a literal; only then is that literal returned. -/
def getRequireSource (node : ANode) : Option ANode :=
  match node with
  | .callExpr callee arguments =>
      match callee with
      | .identifier name =>
          if isEmpty arguments then none
          else if name = "require".toList then
            match arguments.head? with
            | some (ANode.literal value st en) => some (.literal value st en)
            | _ => none
          else none
      | _ => none
  | _ => none

/-- `getImportSource` of the acorn-backed realization. -/
def getImportSource (node : ANode) : Option ANode :=
  match node with
  | .importDecl source =>
      match source with
      | .literal value st en => some (.literal value st en)
      | _ => none
  | _ => none

/-- `getExportSource` of the acorn-backed realization. -/
def getExportSource (node : ANode) : Option ANode :=
  match node with
  | .exportNamedDecl source | .exportAllDecl source =>
      match source with
      | some (ANode.literal value st en) => some (.literal value st en)
      | _ => none
  | _ => none

/-- Models the JavaScript `a || b` chain over `INode | false` values. -/
def jsOrReq (a b : Option ANode) : Option ANode :=
  match a with
  | some x => some x
  | none => b

/-- A `magicString.overwrite` request as issued by the acorn `extract`
closure: the start and end offsets are forwarded exactly as destructured from
the node, without any definedness check. -/
structure PatchOp where
  startPos : Option Nat
  endPos : Option Nat
  replacementText : Str
deriving DecidableEq

/-- The acorn `extract` closure for one visited node: chain the three getters
with `||`, and when the rewrite result passes the `if (newPath)` truthiness
guard (both `false` and the empty string are falsy in JavaScript), forward
the literal span to the patcher, with no position validation anywhere (the
getters only ever return literal nodes, so the catch-all branch is
unreachable). -/
def extract (mappings : Mappings) (node : ANode) : Option PatchOp :=
  match jsOrReq (getRequireSource node) (jsOrReq (getImportSource node) (getExportSource node)) with
  | some (ANode.literal value st en) =>
      match rewrite value mappings with
      | some newPath =>
          if newPath.isEmpty then none
          else some ⟨st, en, singleQuote :: (newPath ++ [singleQuote])⟩
      | none => none
  | _ => none

end Acorn


/-! ### Comparing the two realizations on call expressions -/

/-- One emitted file of the output bundle, restricted to the fields the pass
reads or writes. The source map value produced by
`magicString.generateMap()` is modelled from the spec abstractly as the
original text paired with the recorded edits that determine it (the source
map generator is an external collaborator). -/

structure EmittedFile where
  fileName : Str
  facadeModuleId : Str
  imports : List Str
  code : Option Str
  map : Option (Str × List Babel.RewriteEdit)
deriving DecidableEq

/-- The per-entry callback of `file.imports.map(...)`: an import not passing
the filter is returned unchanged, otherwise it is rewritten with fallback to
the original. -/
def rewriteImportEntry (filter : Str → Bool) (mappings : Mappings) (imported : Str) : Str :=
  if !(filter imported) then imported
  else jsOr (rewrite imported mappings) imported

/-- The array returned by the `file.imports.map(...)` call in
`generateBundle`. -/
def importsMapResult (filter : Str → Bool) (mappings : Mappings) (imports : List Str) : List Str :=
  imports.map (rewriteImportEntry filter mappings)

/-- The metadata portion of the `generateBundle` loop body: `facadeModuleId`
and `fileName` are reassigned with fallback to their original values; the
array of imports is mapped through the same rewrite, but the source never
assigns the array returned by `Array.prototype.map` back to `file.imports`,
so the list of imports of the file is left unchanged. -/
def processFileMeta (filter : Str → Bool) (mappings : Mappings) (file : EmittedFile) : EmittedFile :=
  let facadeModuleId := jsOr (rewrite file.facadeModuleId mappings) file.facadeModuleId
  let fileName := jsOr (rewrite file.fileName mappings) file.fileName
  let _ := importsMapResult filter mappings file.imports
  { file with facadeModuleId := facadeModuleId, fileName := fileName }

/-- Run the Babel `extract` closure over the nodes visited by the traversal,
in visit order, collecting the recorded overwrites and propagating the fatal
position error. -/
def runExtracts (mappings : Mappings) :
    List Babel.BNode → Except Babel.ExtractError (List Babel.RewriteEdit)
  | [] => .ok []
  | node :: rest =>
      match Babel.extract mappings node with
      | .error e => .error e
      | .ok none => runExtracts mappings rest
      | .ok (some edit) =>
          match runExtracts mappings rest with
          | .error e => .error e
          | .ok edits => .ok (edit :: edits)

/-- Insertion of an edit into a start-sorted list of edits. -/
def insertEdit (e : Babel.RewriteEdit) : List Babel.RewriteEdit → List Babel.RewriteEdit
  | [] => [e]
  | f :: fs => if e.start ≤ f.start then e :: f :: fs else f :: insertEdit e fs

/-- Sort recorded edits by start offset. -/
def sortEdits : List Babel.RewriteEdit → List Babel.RewriteEdit
  | [] => []
  | e :: es => insertEdit e (sortEdits es)

/-- Application of start-sorted edits to the original text from a given
offset onward. -/
def applyEditsFrom (code : Str) : Nat → List Babel.RewriteEdit → Str
  | pos, [] => code.drop pos
  | pos, e :: rest =>
      (code.drop pos).take (e.start - pos) ++ e.replacementText
        ++ applyEditsFrom code e.stop rest

/-- Modelled from the spec: `magicString.toString()` of the Text Patcher
collaborator. Every recorded span of the original text is replaced by its
replacement text and all text outside recorded spans is preserved verbatim
(recorded spans do not overlap, per the spec, so the result is independent of
record order). -/
def applyEdits (code : Str) (edits : List Babel.RewriteEdit) : Str :=
  applyEditsFrom code 0 (sortEdits edits)

/-- The `generateBundle` loop body for one file, except the final
delete-and-reinsert: metadata rewrite, then, when the file carries source
code, parse it (via the external parsing collaborator, passed as a function
from source text to the list of visited nodes), run the extract closure over
the visited nodes, and commit the patched text and, when source maps are
enabled, the regenerated map. -/
def processFile (filter : Str → Bool) (mappings : Mappings) (sourceMaps : Bool)
    (parse : Str → List Babel.BNode) (file : EmittedFile) :
    Except Babel.ExtractError EmittedFile :=
  let file1 := processFileMeta filter mappings file
  match file1.code with
  | none => .ok file1
  | some code =>
      if code.isEmpty then .ok file1
      else
        match runExtracts mappings (parse code) with
        | .error e => .error e
        | .ok edits =>
            .ok { file1 with
              code := some (applyEdits code edits),
              map := if sourceMaps then some (code, edits) else file1.map }

/-- The output collection: a JavaScript object from output key to emitted
file, modelled as an insertion-ordered association list with unique keys. -/
abbrev Bundle := List (Str × EmittedFile)

/-- Property lookup `bundle[k]`. -/
def objLookup : Bundle → Str → Option EmittedFile
  | [], _ => none
  | (key, file) :: rest, k => if key = k then some file else objLookup rest k

/-- Models `delete bundle[key]`. -/
def objDelete : Bundle → Str → Bundle
  | [], _ => []
  | (key, file) :: rest, k =>
      if key = k then objDelete rest k else (key, file) :: objDelete rest k

/-- Whether the object has the given own property. -/
def objHas : Bundle → Str → Bool
  | [], _ => false
  | (key, _) :: rest, k => if key = k then true else objHas rest k

/-- Value update of an existing property, keeping its position. -/
def objSetInPlace : Bundle → Str → EmittedFile → Bundle
  | [], _, _ => []
  | (key, old) :: rest, k, file =>
      if key = k then (k, file) :: objSetInPlace rest k file
      else (key, old) :: objSetInPlace rest k file

/-- Models `bundle[k] = file`: an existing key keeps its position and gets
the new value; a new key is appended in insertion order. -/
def objSet (b : Bundle) (k : Str) (file : EmittedFile) : Bundle :=
  if objHas b k then objSetInPlace b k file else b ++ [(k, file)]

/-- One iteration of the `generateBundle` loop over the snapshot of entries:
skip the file whenever its facade module id fails the filter; otherwise
process it and, as the final act, delete its old key from the live collection
and insert the processed record under the rewritten key, falling back to the
old key on no match. -/
def processEntry (filter : Str → Bool) (mappings : Mappings) (sourceMaps : Bool)
    (parse : Str → List Babel.BNode) (st : Bundle) (key : Str) (file : EmittedFile) :
    Except Babel.ExtractError Bundle :=
  if filter file.facadeModuleId then
    match processFile filter mappings sourceMaps parse file with
    | .error e => .error e
    | .ok file1 => .ok (objSet (objDelete st key) (jsOr (rewrite key mappings) key) file1)
  else .ok st

/-- The `generateBundle` loop: iterate the snapshot `Object.entries(bundle)`
while mutating the live collection. -/
def runBundlePass (filter : Str → Bool) (mappings : Mappings) (sourceMaps : Bool)
    (parse : Str → List Babel.BNode) :
    List (Str × EmittedFile) → Bundle → Except Babel.ExtractError Bundle
  | [], st => .ok st
  | entry :: rest, st =>
      match processEntry filter mappings sourceMaps parse st entry.1 entry.2 with
      | .error e => .error e
      | .ok st1 => runBundlePass filter mappings sourceMaps parse rest st1

/-- The `generateBundle` hook of the Babel-backed realization: the snapshot
of entries and the live collection both start as the incoming bundle. -/
def generateBundle (filter : Str → Bool) (mappings : Mappings) (sourceMaps : Bool)
    (parse : Str → List Babel.BNode) (bundle : Bundle) : Except Babel.ExtractError Bundle :=
  runBundlePass filter mappings sourceMaps parse bundle bundle

/-- The excluded file of the C6 witness and counterexample: its facade module
id `y` fails the filter accepting only `x`, while its key and file name carry
a mapped extension. -/
def c6File : EmittedFile :=
  ⟨"b.js".toList, "y".toList, ["chunk.js".toList], none, none⟩

/-- The participating file of the C6 counterexample: it passes the filter and
its key `a.js` rewrites to `a.x`, the key of the excluded file. -/
def c6Collider : EmittedFile :=
  ⟨"a.js".toList, "x".toList, [], none, none⟩

/-- The excluded file of the C6 counterexample, stored under the key
`a.x`. -/
def c6Excluded : EmittedFile :=
  ⟨"a.x".toList, "y".toList, [], none, none⟩

/-- The participating file of the C7 witness, stored under the key `a.js`
with the mapping `.js` to `.mjs`. -/
def c7File : EmittedFile := ⟨"a.js".toList, "x".toList, [], none, none⟩

/-- The file of the C2 failing input: it passes the filter and declares one
mapped-extension import entry. -/
def c2File : EmittedFile :=
  ⟨"index.js".toList, "x".toList, ["chunk.js".toList], none, none⟩

/-! ### Theorems -/

/-! ### Suffix structure of `extname` -/

theorem lastSegment_suffix (p : Str) : lastSegment p <:+ p := by
  rw [← List.reverse_prefix]
  rw [lastSegment, List.reverse_reverse]
  exact List.takeWhile_prefix _

theorem dropWhile_dot (l : Str) (h : '.' ∈ l) :
    ∃ t, l.dropWhile (fun c => c != '.') = '.' :: t := by
  induction l with
  | nil => cases h
  | cons c cs ih =>
    by_cases hc : c = '.'
    · subst hc
      refine ⟨cs, ?_⟩
      simp [List.dropWhile_cons]
    · rcases List.mem_cons.mp h with h1 | h2
      · exact absurd h1.symm hc
      · obtain ⟨t, ht⟩ := ih h2
        refine ⟨t, ?_⟩
        simp only [List.dropWhile_cons]
        rw [if_pos (by simp [hc]), ht]

theorem extname_suffix (p : Str) : extname p <:+ p := by
  by_cases h : '.' ∈ lastSegment p
  · obtain ⟨t, ht⟩ := dropWhile_dot (lastSegment p).reverse (List.mem_reverse.mpr h)
    have hsplit :
        (lastSegment p).reverse.takeWhile (fun c => c != '.') ++ ('.' :: t)
          = (lastSegment p).reverse := by
      rw [← ht]
      exact List.takeWhile_append_dropWhile _ _
    have hseg : lastSegment p
        = t.reverse ++ ('.' :: ((lastSegment p).reverse.takeWhile (fun c => c != '.')).reverse) := by
      conv_lhs => rw [← List.reverse_reverse (lastSegment p), ← hsplit]
      rw [List.reverse_append]
      simp
    have hsub : extname p <:+ lastSegment p := by
      rw [extname, if_pos h]
      exact ⟨t.reverse, hseg.symm⟩
    exact hsub.trans (lastSegment_suffix p)
  · rw [extname, if_neg h]
    exact List.nil_suffix

/-- C1 (amended): for every path `p` and mapping `m`, when the extension of
`p` is a key of `m` and is nonempty, `rewrite(p, m)` returns `p` with that
trailing extension removed and the mapped value appended; when the extension
is not a key, `rewrite(p, m)` returns the no-match value and the caller
fallback `rewrite(p, m) || p` preserves `p` unchanged. -/
theorem c1_rewrite_amended (p : Str) (m : Mappings) :
    (∀ v, lookupMapping m (extname p) = some v → extname p ≠ [] →
      ∃ q, p = q ++ extname p ∧ rewrite p m = some (q ++ v))
    ∧ (lookupMapping m (extname p) = none →
      rewrite p m = none ∧ jsOr (rewrite p m) p = p) := by
  constructor
  · intro v hv hne
    obtain ⟨q, hq⟩ := extname_suffix p
    refine ⟨q, hq.symm, ?_⟩
    have hlen : (extname p).length ≠ 0 := by
      simpa [List.length_eq_zero] using hne
    simp only [rewrite, hv]
    congr 1
    generalize hE : extname p = ext at hq hlen
    subst hq
    rw [jsSliceNeg, if_neg hlen, List.length_append,
      Nat.add_sub_cancel, List.take_left]
  · intro h
    constructor
    · simp [rewrite, h]
    · simp [jsOr, rewrite, h]

/-- C1 (witness): the amended theorem applied to the path `a.js` with the
mapping `.js` to `.mjs`. -/
theorem c1_rewrite_witness :
    ∃ q, "a.js".toList = q ++ extname "a.js".toList
      ∧ rewrite "a.js".toList [(".js".toList, ".mjs".toList)] = some (q ++ ".mjs".toList) :=
  (c1_rewrite_amended "a.js".toList [(".js".toList, ".mjs".toList)]).1
    ".mjs".toList (by decide) (by decide)

/-- C1 (counterexample): for the path `foo` (empty extension) and the mapping
with the empty string as a key mapped to `.js`, the claim as stated requires
`rewrite` to return `foo` with the (empty) trailing extension removed and the
value appended, that is `foo.js`; the code instead discards the whole path
and returns `.js` alone. -/
theorem c1_rewrite_counterexample :
    lookupMapping [(([] : Str), ".js".toList)] (extname "foo".toList) = some ".js".toList
    ∧ rewrite "foo".toList [(([] : Str), ".js".toList)] = some ".js".toList
    ∧ some ".js".toList ≠ some ("foo".toList ++ ".js".toList) := by
  refine ⟨by decide, by decide, by decide⟩

/-- C9: for every path whose extension is empty and every mapping containing
the empty string as a key, `rewrite` returns the mapped value alone, the
entire original path being discarded, because `input.slice(0, -0)` is the
empty string rather than the whole input. -/
theorem c9_empty_extension_discards_path (p : Str) (m : Mappings) (v : Str)
    (hext : extname p = []) (hv : lookupMapping m [] = some v) :
    rewrite p m = some v := by
  simp [rewrite, hext, hv, jsSliceNeg]

/-- C9 (witness): the path `foo` with the mapping sending the empty extension
to `.mjs` rewrites to `.mjs` alone. -/
theorem c9_empty_extension_witness :
    rewrite "foo".toList [(([] : Str), ".mjs".toList)] = some ".mjs".toList :=
  c9_empty_extension_discards_path "foo".toList [(([] : Str), ".mjs".toList)]
    ".mjs".toList (by decide) (by decide)

/-- C4: the Babel-backed `getRequireSource` yields a specifier literal
exactly when the call has at least one argument and that first argument is a
string literal, in which case it returns that literal regardless of what the
callee is. -/
theorem c4_getRequireSource_over_matches (node : CallExpression) (s : SLit) :
    Babel.getRequireSource node = some s ↔ node.arguments.head? = some (Arg.strLit s) := by
  obtain ⟨callee, args⟩ := node
  cases args with
  | nil => simp [Babel.getRequireSource, isEmpty]
  | cons a rest =>
      cases a with
      | strLit t =>
          simp only [Babel.getRequireSource, isEmpty, List.isEmpty_cons,
            Bool.false_eq_true, if_false, List.head?_cons, ite_self]
          constructor
          · intro h
            rw [Option.some_inj.mp h]
          · intro h
            rw [(Arg.strLit.injEq t s ▸ Option.some_inj.mp h : t = s)]
      | otherArg =>
          simp [Babel.getRequireSource, isEmpty]

/-- C3 (amended): for a visited node whose extracted specifier reference has
defined, nonzero start and end offsets: when the Extension Rewrite Rule
returns a nonempty replacement, the Babel `extract` records an edit at
exactly that span whose replacement text is a single-quote character, the
rewritten path, and a single-quote character, regardless of how the original
literal was quoted; when the rule returns no match — or an empty
replacement, which the `if (newPath)` guard treats as falsy — no edit is
recorded, so the source text at the span is left byte-identical. -/
theorem c3_edit_amended (mappings : Mappings) (node : Babel.BNode) (req : SLit)
    (st en : Nat)
    (hreq : Babel.extractReq node = some req)
    (hst : req.startPos = some st) (hen : req.endPos = some en)
    (hst0 : st ≠ 0) (hen0 : en ≠ 0) :
    (∀ newPath, rewrite req.value mappings = some newPath → newPath ≠ [] →
      Babel.extract mappings node
        = .ok (some ⟨st, en, singleQuote :: (newPath ++ [singleQuote])⟩))
    ∧ (rewrite req.value mappings = none → Babel.extract mappings node = .ok none)
    ∧ (rewrite req.value mappings = some [] → Babel.extract mappings node = .ok none) := by
  refine ⟨?_, ?_, ?_⟩
  · intro newPath hrw hnp
    cases newPath with
    | nil => exact absurd rfl hnp
    | cons c cs =>
        simp [Babel.extract, hreq, hst, hen, Babel.jsFalsyPos, hst0, hen0, hrw]
  · intro hrw
    simp [Babel.extract, hreq, hst, hen, Babel.jsFalsyPos, hst0, hen0, hrw]
  · intro hrw
    simp [Babel.extract, hreq, hst, hen, Babel.jsFalsyPos, hst0, hen0, hrw]

/-- C3 (witness): the amended theorem applied to an import of `./a.js` at
span 14..22 with the mapping `.js` to `.mjs`, whose nonempty rewrite result
`./a.mjs` passes the truthiness guard. -/
theorem c3_edit_witness :
    Babel.extract [(".js".toList, ".mjs".toList)]
      (Babel.BNode.importDecl ⟨"./a.js".toList, some 14, some 22⟩)
      = .ok (some ⟨14, 22, singleQuote :: ("./a.mjs".toList ++ [singleQuote])⟩) :=
  (c3_edit_amended [(".js".toList, ".mjs".toList)]
    (Babel.BNode.importDecl ⟨"./a.js".toList, some 14, some 22⟩)
    ⟨"./a.js".toList, some 14, some 22⟩ 14 22 rfl rfl rfl
    (by decide) (by decide)).1 "./a.mjs".toList (by decide) (by decide)

/-- C3 (counterexample): for a double-quoted literal `"./a.js"` at span
14..22, the recorded edit wraps the rewritten path in single quotes, not in
the original quoting character: the claim, as stated, requires the
replacement text to be the original quote, the rewritten path, and the same
quote, which differs from what the code records. -/
theorem c3_quote_counterexample :
    Babel.extract [(".js".toList, ".mjs".toList)]
      (Babel.BNode.importDecl ⟨"./a.js".toList, some 14, some 22⟩)
      = .ok (some ⟨14, 22, singleQuote :: ("./a.mjs".toList ++ [singleQuote])⟩)
    ∧ (c3Code.drop 14).take 8 = '"' :: ("./a.js".toList ++ ['"'])
    ∧ singleQuote :: ("./a.mjs".toList ++ [singleQuote])
        ≠ '"' :: ("./a.mjs".toList ++ ['"']) := by
  refine ⟨rfl, by decide, by decide⟩

/-- C5 (amended, Babel realization): whenever the extracted specifier
reference of a visited node has an undefined start or end position, the Babel
`extract` raises the fatal position error instead of silently skipping the
edit. The acorn realization performs no such check (see the
counterexample). -/
theorem c5_position_error_amended (mappings : Mappings) (node : Babel.BNode) (req : SLit)
    (hreq : Babel.extractReq node = some req)
    (hmiss : req.startPos = none ∨ req.endPos = none) :
    Babel.extract mappings node = .error .positionError := by
  have hfalsy : (Babel.jsFalsyPos req.startPos || Babel.jsFalsyPos req.endPos) = true := by
    rcases hmiss with h | h <;> simp [Babel.jsFalsyPos, h]
  simp [Babel.extract, hreq, hfalsy]

/-- C5 (witness): an import whose literal has no start offset makes the Babel
`extract` raise the fatal position error. -/
theorem c5_position_error_witness :
    Babel.extract [(".js".toList, ".mjs".toList)]
      (Babel.BNode.importDecl ⟨"./a.js".toList, none, some 22⟩)
      = .error .positionError :=
  c5_position_error_amended [(".js".toList, ".mjs".toList)]
    (Babel.BNode.importDecl ⟨"./a.js".toList, none, some 22⟩)
    ⟨"./a.js".toList, none, some 22⟩ rfl (Or.inl rfl)

/-- C10: in the Babel-backed traversal, a specifier reference whose start
offset equals 0 triggers the fatal malformed-position error even though both
positions are defined, because the guard tests truthiness (`!start`) and `0`
is falsy. -/
theorem c10_zero_start_position_error (mappings : Mappings) (node : Babel.BNode)
    (req : SLit) (en : Nat)
    (hreq : Babel.extractReq node = some req)
    (hzero : req.startPos = some 0) (hend : req.endPos = some en) :
    Babel.extract mappings node = .error .positionError := by
  have hfalsy : (Babel.jsFalsyPos req.startPos || Babel.jsFalsyPos req.endPos) = true := by
    rw [hzero]
    simp [Babel.jsFalsyPos]
  simp [Babel.extract, hreq, hfalsy]

/-- C10 (witness): a literal with defined positions 0..8 makes the Babel
`extract` raise the fatal position error even though both positions are
defined. -/
theorem c10_zero_start_witness :
    Babel.extract [(".js".toList, ".mjs".toList)]
      (Babel.BNode.importDecl ⟨"./a.js".toList, some 0, some 8⟩)
      = .error .positionError :=
  c10_zero_start_position_error [(".js".toList, ".mjs".toList)]
    (Babel.BNode.importDecl ⟨"./a.js".toList, some 0, some 8⟩)
    ⟨"./a.js".toList, some 0, some 8⟩ 8 rfl rfl rfl

/-- C5 (counterexample): in the acorn-backed realization, an extracted
reference with an undefined start position does not abort the pass: `extract`
completes normally and forwards the undefined offset to the patcher, while
the Babel realization raises the fatal error on the same reference, so the
fail-fast behaviour does not hold in both realizations. -/
theorem c5_no_check_counterexample :
    Acorn.extract [(".js".toList, ".mjs".toList)]
      (Acorn.ANode.importDecl (.literal "./a.js".toList none (some 22)))
      = some ⟨none, some 22, singleQuote :: ("./a.mjs".toList ++ [singleQuote])⟩
    ∧ Babel.extract [(".js".toList, ".mjs".toList)]
      (Babel.BNode.importDecl ⟨"./a.js".toList, none, some 22⟩)
      = .error .positionError := ⟨rfl, rfl⟩

theorem objLookup_delete_self (b : Bundle) (k : Str) :
    objLookup (objDelete b k) k = none := by
  induction b with
  | nil => rfl
  | cons e rest ih =>
      obtain ⟨key, file⟩ := e
      by_cases h : key = k
      · simp [objDelete, h, ih]
      · simp [objDelete, objLookup, h, ih]

theorem objLookup_delete_ne (b : Bundle) (kd k : Str) (h : kd ≠ k) :
    objLookup (objDelete b kd) k = objLookup b k := by
  induction b with
  | nil => rfl
  | cons e rest ih =>
      obtain ⟨key, file⟩ := e
      by_cases hk : key = kd
      · have hkk : ¬ key = k := by rw [hk]; exact h
        rw [objDelete, if_pos hk, ih, objLookup, if_neg hkk]
      · by_cases hk2 : key = k
        · rw [objDelete, if_neg hk, objLookup, if_pos hk2, objLookup, if_pos hk2]
        · rw [objDelete, if_neg hk, objLookup, if_neg hk2, ih, objLookup, if_neg hk2]

theorem objLookup_setInPlace_self (b : Bundle) (k : Str) (file : EmittedFile)
    (hb : objHas b k = true) : objLookup (objSetInPlace b k file) k = some file := by
  induction b with
  | nil => simp [objHas] at hb
  | cons e rest ih =>
      obtain ⟨key, old⟩ := e
      by_cases h : key = k
      · simp [objSetInPlace, objLookup, h]
      · simp only [objHas, if_neg h] at hb
        simp [objSetInPlace, objLookup, h, ih hb]

theorem objLookup_append_self (b : Bundle) (k : Str) (file : EmittedFile)
    (hb : objHas b k = false) : objLookup (b ++ [(k, file)]) k = some file := by
  induction b with
  | nil => simp [objLookup]
  | cons e rest ih =>
      obtain ⟨key, old⟩ := e
      by_cases h : key = k
      · simp [objHas, h] at hb
      · simp only [objHas, if_neg h] at hb
        simp [objLookup, h, ih hb]

theorem objLookup_set_self (b : Bundle) (k : Str) (file : EmittedFile) :
    objLookup (objSet b k file) k = some file := by
  rw [objSet]
  by_cases hb : objHas b k = true
  · rw [if_pos hb]
    exact objLookup_setInPlace_self b k file hb
  · rw [if_neg hb]
    exact objLookup_append_self b k file (by simpa using hb)

theorem objLookup_setInPlace_ne (b : Bundle) (ks k : Str) (file : EmittedFile)
    (h : ks ≠ k) : objLookup (objSetInPlace b ks file) k = objLookup b k := by
  induction b with
  | nil => rfl
  | cons e rest ih =>
      obtain ⟨key, old⟩ := e
      by_cases hk : key = ks
      · have hkk : ¬ key = k := by rw [hk]; exact h
        rw [objSetInPlace, if_pos hk, objLookup, if_neg h, ih, objLookup, if_neg hkk]
      · by_cases hk2 : key = k
        · rw [objSetInPlace, if_neg hk, objLookup, if_pos hk2, objLookup, if_pos hk2]
        · rw [objSetInPlace, if_neg hk, objLookup, if_neg hk2, ih, objLookup, if_neg hk2]

theorem objLookup_append_ne (b : Bundle) (ks k : Str) (file : EmittedFile)
    (h : ks ≠ k) : objLookup (b ++ [(ks, file)]) k = objLookup b k := by
  induction b with
  | nil => simp [objLookup, h]
  | cons e rest ih =>
      obtain ⟨key, old⟩ := e
      by_cases hk : key = k
      · simp [objLookup, hk]
      · simp [objLookup, hk, ih]

theorem objLookup_set_ne (b : Bundle) (ks k : Str) (file : EmittedFile)
    (h : ks ≠ k) : objLookup (objSet b ks file) k = objLookup b k := by
  rw [objSet]
  by_cases hb : objHas b ks = true
  · rw [if_pos hb]
    exact objLookup_setInPlace_ne b ks k file h
  · rw [if_neg hb]
    exact objLookup_append_ne b ks k file h

/-- Loop invariant of `runBundlePass`: an entry of the live collection is
preserved across the loop provided no processed snapshot entry has its key or
its rewritten key. -/
theorem runBundlePass_preserves (filter : Str → Bool) (mappings : Mappings)
    (sourceMaps : Bool) (parse : Str → List Babel.BNode) (k : Str) (f : EmittedFile) :
    ∀ (entries : List (Str × EmittedFile)) (st st1 : Bundle),
    objLookup st k = some f →
    (∀ e ∈ entries, filter (e.2).facadeModuleId = true →
      e.1 ≠ k ∧ jsOr (rewrite e.1 mappings) e.1 ≠ k) →
    runBundlePass filter mappings sourceMaps parse entries st = .ok st1 →
    objLookup st1 k = some f := by
  intro entries
  induction entries with
  | nil =>
      intro st st1 hst _ hrun
      simp only [runBundlePass, Except.ok.injEq] at hrun
      rw [← hrun]
      exact hst
  | cons e rest ih =>
      intro st st1 hst hents hrun
      simp only [runBundlePass] at hrun
      by_cases hf : filter e.2.facadeModuleId = true
      · obtain ⟨hne, hnew⟩ := hents e (List.mem_cons_self e rest) hf
        cases hpf : processFile filter mappings sourceMaps parse e.2 with
        | error err =>
            rw [processEntry, if_pos hf, hpf] at hrun
            simp at hrun
        | ok file1 =>
            rw [processEntry, if_pos hf, hpf] at hrun
            refine ih (objSet (objDelete st e.1) (jsOr (rewrite e.1 mappings) e.1) file1)
              st1 ?_ ?_ hrun
            · rw [objLookup_set_ne _ _ _ _ hnew, objLookup_delete_ne _ _ _ hne]
              exact hst
            · intro e2 he2 hf2
              exact hents e2 (List.mem_cons_of_mem e he2) hf2
      · rw [processEntry, if_neg hf] at hrun
        exact ih st st1 hst (fun e2 he2 hf2 => hents e2 (List.mem_cons_of_mem e he2) hf2) hrun

/-- C6 (amended): a file whose facade module id fails the include/exclude
filter is skipped entirely by the pass: its record (file name, facade module
id, imports, code, source map) keeps its original value and it remains in the
output collection under its original key, provided no participating file
shares its key or is rewritten onto its key (the delete-and-reinsert of
another file can otherwise overwrite it; the spec leaves such key collisions
unguarded). -/
theorem c6_excluded_file_untouched (filter : Str → Bool) (mappings : Mappings)
    (sourceMaps : Bool) (parse : Str → List Babel.BNode) (bundle bundle1 : Bundle)
    (k : Str) (f : EmittedFile)
    (hin : objLookup bundle k = some f)
    (hfail : filter f.facadeModuleId = false)
    (hnocol : ∀ e ∈ bundle, filter (e.2).facadeModuleId = true →
      e.1 ≠ k ∧ jsOr (rewrite e.1 mappings) e.1 ≠ k)
    (hrun : generateBundle filter mappings sourceMaps parse bundle = .ok bundle1) :
    objLookup bundle1 k = some f :=
  runBundlePass_preserves filter mappings sourceMaps parse k f bundle bundle bundle1
    hin hnocol hrun

/-- C6 (witness): a singleton bundle whose only file fails the filter is left
intact by the pass. -/
theorem c6_excluded_file_witness :
    objLookup [("b.js".toList, c6File)] "b.js".toList = some c6File :=
  c6_excluded_file_untouched (fun s => s == "x".toList) [(".js".toList, ".mjs".toList)]
    true (fun _ => []) [("b.js".toList, c6File)] [("b.js".toList, c6File)]
    "b.js".toList c6File (by decide) (by decide) (by decide) rfl

/-- C6 (counterexample): with the mapping `.js` to `.x`, processing the
participating file stored under `a.js` reinserts it under `a.x`, the key of
the excluded file, overwriting it: after the pass the excluded file no longer
sits under its original key, so the claim as stated fails without a
no-collision proviso. -/
theorem c6_collision_counterexample :
    (fun s => s == "x".toList) c6Excluded.facadeModuleId = false
    ∧ objLookup [("a.js".toList, c6Collider), ("a.x".toList, c6Excluded)] "a.x".toList
        = some c6Excluded
    ∧ generateBundle (fun s => s == "x".toList) [(".js".toList, ".x".toList)] true
        (fun _ => []) [("a.js".toList, c6Collider), ("a.x".toList, c6Excluded)]
      = .ok [("a.x".toList, ⟨"a.x".toList, "x".toList, [], none, none⟩)]
    ∧ objLookup [("a.x".toList, (⟨"a.x".toList, "x".toList, [], none, none⟩ : EmittedFile))]
        "a.x".toList ≠ some c6Excluded := by
  refine ⟨by decide, by decide, rfl, by decide⟩

/-- C7: for every emitted file passing the filter (and whose processing
succeeds), the final act of the loop body removes the file from the live
collection under its old key and reinserts the processed record under the key
produced by the Extension Rewrite Rule applied to the old key, falling back
to the old key on no match; afterwards the record is present under the
rewritten key and, whenever the rewritten key differs from the old key,
absent under the old key. -/
theorem c7_key_rename (filter : Str → Bool) (mappings : Mappings) (sourceMaps : Bool)
    (parse : Str → List Babel.BNode) (st : Bundle) (key : Str) (file file1 : EmittedFile)
    (hpass : filter file.facadeModuleId = true)
    (hok : processFile filter mappings sourceMaps parse file = .ok file1) :
    processEntry filter mappings sourceMaps parse st key file
      = .ok (objSet (objDelete st key) (jsOr (rewrite key mappings) key) file1)
    ∧ objLookup (objSet (objDelete st key) (jsOr (rewrite key mappings) key) file1)
        (jsOr (rewrite key mappings) key) = some file1
    ∧ (jsOr (rewrite key mappings) key ≠ key →
      objLookup (objSet (objDelete st key) (jsOr (rewrite key mappings) key) file1)
        key = none) := by
  refine ⟨?_, objLookup_set_self _ _ _, ?_⟩
  · rw [processEntry, if_pos hpass, hok]
  · intro hne
    rw [objLookup_set_ne _ _ _ _ hne]
    exact objLookup_delete_self st key

/-- C7 (witness): the theorem applied to a file under the key `a.js` with the
mapping `.js` to `.mjs`: the loop body reinserts the processed record under
`a.mjs`, where it is then found, and the old key `a.js` resolves to
nothing. -/
theorem c7_key_rename_witness :
    processEntry (fun _ => true) [(".js".toList, ".mjs".toList)] true (fun _ => [])
        [("a.js".toList, c7File)] "a.js".toList c7File
      = .ok (objSet (objDelete [("a.js".toList, c7File)] "a.js".toList)
          (jsOr (rewrite "a.js".toList [(".js".toList, ".mjs".toList)]) "a.js".toList)
          ⟨"a.mjs".toList, "x".toList, [], none, none⟩)
    ∧ objLookup (objSet (objDelete [("a.js".toList, c7File)] "a.js".toList)
          (jsOr (rewrite "a.js".toList [(".js".toList, ".mjs".toList)]) "a.js".toList)
          ⟨"a.mjs".toList, "x".toList, [], none, none⟩)
        (jsOr (rewrite "a.js".toList [(".js".toList, ".mjs".toList)]) "a.js".toList)
      = some ⟨"a.mjs".toList, "x".toList, [], none, none⟩
    ∧ objLookup (objSet (objDelete [("a.js".toList, c7File)] "a.js".toList)
          (jsOr (rewrite "a.js".toList [(".js".toList, ".mjs".toList)]) "a.js".toList)
          ⟨"a.mjs".toList, "x".toList, [], none, none⟩)
        "a.js".toList = none := by
  have h := c7_key_rename (fun _ => true) [(".js".toList, ".mjs".toList)] true
    (fun _ => []) [("a.js".toList, c7File)] "a.js".toList c7File
    ⟨"a.mjs".toList, "x".toList, [], none, none⟩ rfl rfl
  exact ⟨h.1, h.2.1, h.2.2 (by decide)⟩

/-- C2 (code bug): the loop body computes the rewritten imports array via
`Array.prototype.map`, and the rewritten array differs from the original, but
the source never assigns the returned array back to `file.imports`, so after
the metadata step the imports list of the file still holds its original
entries, contradicting the claim that the list reflects the rewrites. -/
theorem c2_imports_map_discarded :
    (processFileMeta (fun _ => true) [(".js".toList, ".mjs".toList)] c2File).imports
      = ["chunk.js".toList]
    ∧ importsMapResult (fun _ => true) [(".js".toList, ".mjs".toList)] c2File.imports
      = ["chunk.mjs".toList]
    ∧ (["chunk.js".toList] : List Str) ≠ ["chunk.mjs".toList] := by
  refine ⟨by decide, by decide, by decide⟩
